import Mathlib

/-!
# BasicGain: potentiometer-controlled gain (src/BasicGain/src/BasicGain.cpp)

A shallow embedding of `loop()` and of the arithmetic it performs.

* Time stamps are `unsigned long` (32 bit on the target): naturals below `2^32`,
  with subtraction taken modulo `2^32`.
* `float` and `double` values are modelled by the rational number they denote.
  Every arithmetic operation, literal and conversion of the source is followed
  by the IEEE-754 rounding of its result type (round to nearest, ties to even):
  `f32` for `float`, `f64` for `double`.  Each operation is rounded on its own
  (no fused multiply-add), and unsuffixed literals are `double`, as the C++
  source is written.  Every value `loop()` handles has magnitude far below the
  overflow threshold, so only finite results are modelled.
* The two `AudioEffectGain` objects, the serial port and the potentiometer pin
  are external; each is modelled by the record of the calls made on it.
-/

namespace BasicGain

/-! ## IEEE-754 rounding on rationals -/

/-- Nearest integer to `y`, a tie going to the even neighbour. -/
def roundHalfEven (y : ℚ) : ℤ :=
  let f := ⌊y⌋
  if y - f < 1 / 2 then f
  else if 1 / 2 < y - f then f + 1
  else if f % 2 = 0 then f else f + 1

/-- Exponent of the unit in the last place of `x` in a binary format with
`prec` significand bits and least normal exponent `emin`. -/
def ulpExp (prec : ℕ) (emin : ℤ) (x : ℚ) : ℤ :=
  max (Int.log 2 |x|) emin - (prec - 1)

/-- Round `x` to the nearest value of the binary format `(prec, emin)`,
ties to even.  Values below `2^emin` fall on the subnormal grid. -/
def roundFloat (prec : ℕ) (emin : ℤ) (x : ℚ) : ℚ :=
  roundHalfEven (x / 2 ^ ulpExp prec emin x) * 2 ^ ulpExp prec emin x

/-- Rounding to `float` (binary32: 24 significand bits, least normal exponent -126). -/
def f32 (x : ℚ) : ℚ := roundFloat 24 (-126) x

/-- Rounding to `double` (binary64: 53 significand bits, least normal exponent -1022). -/
def f64 (x : ℚ) : ℚ := roundFloat 53 (-1022) x

/-- Rounding half up, as the specification writes `round`. -/
def roundHalfUp (x : ℚ) : ℤ := ⌊x + 1 / 2⌋

/-- Conversion of a floating value to `int`: truncation toward zero. -/
def truncToInt (x : ℚ) : ℤ := if 0 ≤ x then ⌊x⌋ else ⌈x⌉

/-! ## The arithmetic of `loop()` -/

/-- Line 88: `float val = float(analogRead(POT_PIN)) / 1024.0;` for the raw reading `pot`. -/
def readVal (pot : ℕ) : ℚ := f32 (f64 (f32 (pot : ℚ) / f64 1024))

/-- The integer `(int)(10.0 * val + 0.5)` of line 89. -/
def quantStep (val : ℚ) : ℤ := truncToInt (f64 (f64 (f64 10 * val) + f64 (1 / 2)))

/-- Line 89: `val = 0.1 * (float)((int)(10.0 * val + 0.5));`. -/
def quantize (val : ℚ) : ℚ := f32 (f64 (f64 (1 / 10) * f32 (quantStep val : ℚ)))

/-- Line 93: `const float min_gain_dB = -20.0;`. -/
def min_gain_dB : ℚ := f32 (-f64 20)

/-- Line 94: `const float max_gain_dB = 0.0;`. -/
def max_gain_dB : ℚ := f32 (f64 0)

/-- Line 95: `gain_dB = min_gain_dB + (max_gain_dB - min_gain_dB) * val`
for the quantized `val`. -/
def mapGain (val : ℚ) : ℚ :=
  f32 (min_gain_dB + f32 (f32 (max_gain_dB - min_gain_dB) * val))

/-- The value of `gain_dB` computed by lines 88 to 95 from the raw reading `pot`. -/
def gain_dB (pot : ℕ) : ℚ := mapGain (quantize (readVal pot))

/-- Line 98: the test `abs(gain_dB - prev_gain_dB) > 1.0`; the `int` operand is
converted to `float` and the difference is a `float`. -/
def gainChanged (g : ℚ) (prev : ℤ) : Bool :=
  decide (f64 1 < |f32 (g - f32 (prev : ℚ))|)

/-! ## State and `loop()` -/

/-- Line 73: `unsigned long updatePeriod_millis = 100;` (never assigned). -/
def updatePeriod_millis : ℕ := 100

/-- Subtraction of two `unsigned long` values: the result modulo `2^32`. -/
def sub32 (a b : ℕ) : ℕ := (a + 2 ^ 32 - b) % 2 ^ 32

/-- The globals of lines 74 to 76 and the record of the calls made on the
external objects: `gain1` and `gain2` hold the arguments of the `setGain_dB`
calls received by each processor, most recent first; `serial` holds the gains
printed; `potReads` counts the calls of `analogRead(POT_PIN)`. -/
structure State where
  lastUpdate_millis : ℕ
  curTime_millis : ℕ
  prev_gain_dB : ℤ
  gain1 : List ℚ
  gain2 : List ℚ
  serial : List ℚ
  potReads : ℕ

/-- The state at boot: the initialisers of lines 74 to 76, no call made yet. -/
def init : State :=
  { lastUpdate_millis := 0, curTime_millis := 0, prev_gain_dB := 0,
    gain1 := [], gain2 := [], serial := [], potReads := 0 }

/-- Line 81: `curTime_millis = millis();`, for the value `now` returned by `millis()`. -/
def readClock (s : State) (now : ℕ) : State := { s with curTime_millis := now }

/-- Lines 82 and 83: the wraparound guard. -/
def wrapGuard (s : State) : State :=
  if s.curTime_millis < s.lastUpdate_millis then { s with lastUpdate_millis := 0 } else s

/-- Lines 98 to 106: apply the gain `g` when it differs enough from the previous one. -/
def applyGain (s : State) (g : ℚ) : State :=
  if gainChanged g s.prev_gain_dB then
    { s with gain1 := g :: s.gain1, gain2 := g :: s.gain2, serial := g :: s.serial,
             prev_gain_dB := truncToInt g }
  else s

/-- Lines 88 to 108, the body of the elapsed-time test (an update attempt):
`pot` is the value returned by `analogRead(POT_PIN)`. -/
def updateAttempt (s : State) (pot : ℕ) : State :=
  let s1 := { s with potReads := s.potReads + 1 }
  let s2 := applyGain s1 (gain_dB pot)
  { s2 with lastUpdate_millis := s2.curTime_millis }

/-- Elapsed time of line 84, `curTime_millis - lastUpdate_millis` in `unsigned long`. -/
def elapsed (s : State) : ℕ := sub32 s.curTime_millis s.lastUpdate_millis

/-- One invocation of `loop()`: `now` is the value returned by `millis()` and
`pot` the value `analogRead(POT_PIN)` returns if it is called. -/
def loop (s : State) (now pot : ℕ) : State :=
  let s1 := wrapGuard (readClock s now)
  if updatePeriod_millis < elapsed s1 then updateAttempt s1 pot else s1

/-- The states `loop()` can be in between two invocations: `millis()` returns a
32-bit value and `analogRead` a 10-bit value. -/
inductive Reachable : State → Prop
  | boot : Reachable init
  | step (s : State) (now pot : ℕ) (hs : Reachable s) (hnow : now < 2 ^ 32)
      (hpot : pot < 1024) : Reachable (loop s now pot)

/-! ## Rounding lemmas -/

theorem roundHalfEven_intCast (m : ℤ) : roundHalfEven (m : ℚ) = m := by
  simp [roundHalfEven]

theorem roundHalfEven_of_lt (y : ℚ) (m : ℤ) (h1 : (m : ℚ) - 1 / 2 < y)
    (h2 : y < m + 1 / 2) : roundHalfEven y = m := by
  unfold roundHalfEven
  rcases le_or_lt (m : ℚ) y with h | h
  · have hf : ⌊y⌋ = m := Int.floor_eq_iff.mpr ⟨h, by linarith⟩
    simp only [hf]
    rw [if_pos (by linarith)]
  · have hf : ⌊y⌋ = m - 1 := Int.floor_eq_iff.mpr ⟨by push_cast; linarith, by push_cast; linarith⟩
    simp only [hf]
    rw [if_neg (by push_cast; linarith), if_pos (by push_cast; linarith)]
    ring

theorem roundHalfEven_tie (y : ℚ) (m : ℤ) (h : y = m + 1 / 2) :
    roundHalfEven y = if m % 2 = 0 then m else m + 1 := by
  unfold roundHalfEven
  have hf : ⌊y⌋ = m := Int.floor_eq_iff.mpr ⟨by linarith, by linarith⟩
  simp only [hf]
  rw [if_neg (by linarith), if_neg (by linarith)]

theorem roundHalfEven_ge (y : ℚ) (M : ℤ) (h : (M : ℚ) ≤ y) : M ≤ roundHalfEven y := by
  have hf : M ≤ ⌊y⌋ := Int.le_floor.mpr h
  unfold roundHalfEven
  simp only
  split_ifs <;> omega

theorem roundHalfEven_le (y : ℚ) (M : ℤ) (h : y ≤ (M : ℚ)) : roundHalfEven y ≤ M := by
  rcases eq_or_lt_of_le h with h | h
  · rw [h, roundHalfEven_intCast]
  · have hf : ⌊y⌋ < M := Int.floor_lt.mpr h
    unfold roundHalfEven
    simp only
    split_ifs <;> omega

theorem intLog_eq (x : ℚ) (E : ℤ) (h1 : (2 : ℚ) ^ E ≤ x) (h2 : x < 2 ^ (E + 1)) :
    Int.log 2 x = E := by
  have hx : 0 < x := lt_of_lt_of_le (by positivity) h1
  apply le_antisymm
  · have := (Int.lt_zpow_iff_log_lt (b := 2) (by norm_num) (x := E + 1) hx).mp (by simpa using h2)
    omega
  · exact (Int.zpow_le_iff_le_log (b := 2) (by norm_num) hx).mp (by simpa using h1)

theorem roundFloat_zero (prec : ℕ) (emin : ℤ) : roundFloat prec emin 0 = 0 := by
  simp [roundFloat, roundHalfEven]

/-- A dyadic value whose significand fits in `prec` bits, on or above the
subnormal grid, is left unchanged by rounding. -/
theorem roundFloat_exact (prec : ℕ) (emin : ℤ) (m e : ℤ) (hm : |m| < 2 ^ prec)
    (he : emin - (prec - 1) ≤ e) :
    roundFloat prec emin ((m : ℚ) * 2 ^ e) = (m : ℚ) * 2 ^ e := by
  rcases eq_or_ne m 0 with rfl | hm0
  · simp [roundFloat_zero]
  have h2 : (0 : ℚ) < 2 := by norm_num
  have hx : 0 < |(m : ℚ) * 2 ^ e| := abs_pos.mpr (mul_ne_zero (by exact_mod_cast hm0) (by positivity))
  have hlt : |(m : ℚ) * 2 ^ e| < 2 ^ ((prec : ℤ) + e) := by
    rw [abs_mul, abs_of_pos (by positivity : (0 : ℚ) < 2 ^ e), zpow_add₀ (by norm_num)]
    apply mul_lt_mul_of_pos_right _ (by positivity)
    have : ((|m| : ℤ) : ℚ) < ((2 ^ prec : ℤ) : ℚ) := by exact_mod_cast hm
    simpa using this
  have hlog : Int.log 2 |(m : ℚ) * 2 ^ e| < prec + e :=
    (Int.lt_zpow_iff_log_lt (b := 2) (by norm_num) hx).mp (by simpa using hlt)
  have hu : ulpExp prec emin ((m : ℚ) * 2 ^ e) ≤ e := by
    unfold ulpExp
    rcases le_total (Int.log 2 |(m : ℚ) * 2 ^ e|) emin with h | h
    · rw [max_eq_right h]; omega
    · rw [max_eq_left h]; omega
  unfold roundFloat
  generalize ulpExp prec emin ((m : ℚ) * 2 ^ e) = u at hu
  obtain ⟨d, rfl⟩ : ∃ d : ℕ, e = u + d := ⟨(e - u).toNat, by omega⟩
  have hdiv : (m : ℚ) * 2 ^ (u + (d : ℤ)) / 2 ^ u = ((m * 2 ^ d : ℤ) : ℚ) := by
    rw [zpow_add₀ (by norm_num)]
    field_simp
    ring
  rw [hdiv, roundHalfEven_intCast, zpow_add₀ (by norm_num)]
  push_cast
  simp only [zpow_natCast]
  ring

/-- Evaluation of a rounding away from a tie: `x` lies in the binade of `2^E`
and strictly within half a unit in the last place of `m * 2^(E - (prec - 1))`. -/
theorem roundFloat_eval (prec : ℕ) (emin : ℤ) (x : ℚ) (E m : ℤ) (hE : emin ≤ E)
    (h1 : (2 : ℚ) ^ E ≤ x) (h2 : x < 2 ^ (E + 1))
    (h3 : (2 * (m : ℚ) - 1) * 2 ^ (E - (prec - 1)) < 2 * x)
    (h4 : 2 * x < (2 * (m : ℚ) + 1) * 2 ^ (E - (prec - 1))) :
    roundFloat prec emin x = (m : ℚ) * 2 ^ (E - (prec - 1)) := by
  have hx : 0 < x := lt_of_lt_of_le (by positivity) h1
  have hu : ulpExp prec emin x = E - (prec - 1) := by
    unfold ulpExp
    rw [abs_of_pos hx, intLog_eq x E h1 h2, max_eq_left hE]
  unfold roundFloat
  rw [hu]
  have hp : (0 : ℚ) < 2 ^ (E - ((prec : ℤ) - 1)) := by positivity
  rw [roundHalfEven_of_lt _ m]
  · rw [lt_div_iff₀ hp]; linarith
  · rw [div_lt_iff₀ hp]; linarith

/-- Evaluation of a rounding at a tie: `x` is half way between two neighbours. -/
theorem roundFloat_tie (prec : ℕ) (emin : ℤ) (x : ℚ) (E m : ℤ) (hE : emin ≤ E)
    (h1 : (2 : ℚ) ^ E ≤ x) (h2 : x < 2 ^ (E + 1))
    (h3 : 2 * x = (2 * (m : ℚ) + 1) * 2 ^ (E - (prec - 1))) :
    roundFloat prec emin x
      = ((if m % 2 = 0 then m else m + 1 : ℤ) : ℚ) * 2 ^ (E - (prec - 1)) := by
  have hx : 0 < x := lt_of_lt_of_le (by positivity) h1
  have hu : ulpExp prec emin x = E - (prec - 1) := by
    unfold ulpExp
    rw [abs_of_pos hx, intLog_eq x E h1 h2, max_eq_left hE]
  unfold roundFloat
  rw [hu]
  have hp : (0 : ℚ) < 2 ^ (E - ((prec : ℤ) - 1)) := by positivity
  rw [roundHalfEven_tie _ m]
  rw [div_eq_iff hp.ne']
  linarith

/-- Rounding never takes a value across a power of two of the normal range. -/
theorem roundFloat_abs_ge (prec : ℕ) (emin : ℤ) (x : ℚ) (n : ℤ) (hprec : 1 ≤ prec)
    (hn : emin ≤ n) (h : (2 : ℚ) ^ n ≤ |x|) : (2 : ℚ) ^ n ≤ |roundFloat prec emin x| := by
  obtain ⟨q, rfl⟩ : ∃ q : ℕ, prec = q + 1 := ⟨prec - 1, by omega⟩
  have hx : 0 < |x| := lt_of_lt_of_le (by positivity) h
  have hL : n ≤ Int.log 2 |x| :=
    (Int.zpow_le_iff_le_log (b := 2) (by norm_num) hx).mp (by simpa using h)
  have hLx : (2 : ℚ) ^ Int.log 2 |x| ≤ |x| := by
    simpa using Int.zpow_log_le_self (b := 2) (by norm_num) hx
  have hu : ulpExp (q + 1) emin x = Int.log 2 |x| - q := by
    unfold ulpExp
    rw [max_eq_left (le_trans hn hL)]
    push_cast
    ring
  unfold roundFloat
  rw [hu]
  generalize Int.log 2 |x| = L at hL hLx
  have hp : (0 : ℚ) < 2 ^ (L - (q : ℤ)) := by positivity
  have hM : ((2 ^ q : ℤ) : ℚ) * 2 ^ (L - (q : ℤ)) = 2 ^ L := by
    push_cast
    rw [← zpow_natCast, ← zpow_add₀ (by norm_num)]
    congr 1
    ring
  have hnL : (2 : ℚ) ^ n ≤ 2 ^ L := zpow_le_zpow_right₀ (by norm_num) hL
  rcases le_or_lt 0 x with h0 | h0
  · rw [abs_of_nonneg h0] at hLx
    have hy : ((2 ^ q : ℤ) : ℚ) ≤ x / 2 ^ (L - (q : ℤ)) := by
      rw [le_div_iff₀ hp, hM]; exact hLx
    have hR : ((2 ^ q : ℤ) : ℚ) ≤ roundHalfEven (x / 2 ^ (L - (q : ℤ))) := by
      exact_mod_cast roundHalfEven_ge _ _ hy
    calc (2 : ℚ) ^ n ≤ 2 ^ L := hnL
      _ = ((2 ^ q : ℤ) : ℚ) * 2 ^ (L - (q : ℤ)) := hM.symm
      _ ≤ roundHalfEven (x / 2 ^ (L - (q : ℤ))) * 2 ^ (L - (q : ℤ)) :=
          mul_le_mul_of_nonneg_right hR hp.le
      _ ≤ |(roundHalfEven (x / 2 ^ (L - (q : ℤ))) : ℚ) * 2 ^ (L - (q : ℤ))| := le_abs_self _
  · rw [abs_of_neg h0] at hLx
    have hy : x / 2 ^ (L - (q : ℤ)) ≤ ((-(2 ^ q) : ℤ) : ℚ) := by
      rw [div_le_iff₀ hp]
      have : ((-(2 ^ q) : ℤ) : ℚ) * 2 ^ (L - (q : ℤ)) = -(2 ^ L) := by
        rw [← hM]; push_cast; ring
      rw [this]; linarith
    have hR : (roundHalfEven (x / 2 ^ (L - (q : ℤ))) : ℚ) ≤ ((-(2 ^ q) : ℤ) : ℚ) := by
      exact_mod_cast roundHalfEven_le _ _ hy
    have hR2 : (roundHalfEven (x / 2 ^ (L - (q : ℤ))) : ℚ) * 2 ^ (L - (q : ℤ)) ≤ -(2 ^ L) := by
      have := mul_le_mul_of_nonneg_right hR hp.le
      have h2 : ((-(2 ^ q) : ℤ) : ℚ) * 2 ^ (L - (q : ℤ)) = -(2 ^ L) := by
        rw [← hM]; push_cast; ring
      linarith
    calc (2 : ℚ) ^ n ≤ 2 ^ L := hnL
      _ ≤ -((roundHalfEven (x / 2 ^ (L - (q : ℤ))) : ℚ) * 2 ^ (L - (q : ℤ))) := by linarith
      _ ≤ |(roundHalfEven (x / 2 ^ (L - (q : ℤ))) : ℚ) * 2 ^ (L - (q : ℤ))| := neg_le_abs _

/-! ## The two formats -/

theorem f32_exact (m e : ℤ) (hm : |m| < 2 ^ 24) (he : -149 ≤ e) :
    f32 ((m : ℚ) * 2 ^ e) = (m : ℚ) * 2 ^ e :=
  roundFloat_exact 24 (-126) m e hm (by norm_num; omega)

theorem f64_exact (m e : ℤ) (hm : |m| < 2 ^ 53) (he : -1074 ≤ e) :
    f64 ((m : ℚ) * 2 ^ e) = (m : ℚ) * 2 ^ e :=
  roundFloat_exact 53 (-1022) m e hm (by norm_num; omega)

theorem f32_int (n : ℤ) (h : |n| < 2 ^ 24) : f32 (n : ℚ) = n := by
  simpa using f32_exact n 0 h (by norm_num)

theorem f64_int (n : ℤ) (h : |n| < 2 ^ 53) : f64 (n : ℚ) = n := by
  simpa using f64_exact n 0 h (by norm_num)

theorem f32_eval (x y : ℚ) (E m : ℤ) (hE : -126 ≤ E)
    (h1 : (2 : ℚ) ^ E ≤ x) (h2 : x < 2 ^ (E + 1))
    (h3 : (2 * (m : ℚ) - 1) * 2 ^ (E - 23) < 2 * x)
    (h4 : 2 * x < (2 * (m : ℚ) + 1) * 2 ^ (E - 23))
    (hy : y = (m : ℚ) * 2 ^ (E - 23)) : f32 x = y := by
  rw [hy, f32, roundFloat_eval 24 (-126) x E m hE h1 h2 (by simpa using h3) (by simpa using h4)]
  norm_num

theorem f32_tie (x y : ℚ) (E m : ℤ) (hE : -126 ≤ E)
    (h1 : (2 : ℚ) ^ E ≤ x) (h2 : x < 2 ^ (E + 1))
    (h3 : 2 * x = (2 * (m : ℚ) + 1) * 2 ^ (E - 23))
    (hy : y = ((if m % 2 = 0 then m else m + 1 : ℤ) : ℚ) * 2 ^ (E - 23)) : f32 x = y := by
  rw [hy, f32, roundFloat_tie 24 (-126) x E m hE h1 h2 (by simpa using h3)]
  norm_num

theorem f64_eval (x y : ℚ) (E m : ℤ) (hE : -1022 ≤ E)
    (h1 : (2 : ℚ) ^ E ≤ x) (h2 : x < 2 ^ (E + 1))
    (h3 : (2 * (m : ℚ) - 1) * 2 ^ (E - 52) < 2 * x)
    (h4 : 2 * x < (2 * (m : ℚ) + 1) * 2 ^ (E - 52))
    (hy : y = (m : ℚ) * 2 ^ (E - 52)) : f64 x = y := by
  rw [hy, f64, roundFloat_eval 53 (-1022) x E m hE h1 h2 (by simpa using h3) (by simpa using h4)]
  norm_num

theorem f64_tie (x y : ℚ) (E m : ℤ) (hE : -1022 ≤ E)
    (h1 : (2 : ℚ) ^ E ≤ x) (h2 : x < 2 ^ (E + 1))
    (h3 : 2 * x = (2 * (m : ℚ) + 1) * 2 ^ (E - 52))
    (hy : y = ((if m % 2 = 0 then m else m + 1 : ℤ) : ℚ) * 2 ^ (E - 52)) : f64 x = y := by
  rw [hy, f64, roundFloat_tie 53 (-1022) x E m hE h1 h2 (by simpa using h3)]
  norm_num

theorem f64_tenth : f64 (1 / 10) = 3602879701896397 / 36028797018963968 :=
  f64_eval _ _ (-4) 7205759403792794 (by norm_num) (by norm_num) (by norm_num) (by norm_num)
    (by norm_num) (by norm_num)

/-! ## The eleven quantization steps

For each step `k`: the product `0.1 * k` rounded to `double` and then to `float`
is the `float` nearest to `k / 10`, and twenty times that `float` rounds to `2 * k`. -/

theorem table_0 : f32 (f64 (f64 (1 / 10) * ((0 : ℕ) : ℚ))) = f32 (((0 : ℕ) : ℚ) / 10) ∧
    f32 (20 * f32 (((0 : ℕ) : ℚ) / 10)) = 2 * ((0 : ℕ) : ℚ) := by
  simp [f32, f64, roundFloat_zero]

theorem table_1 : f32 (f64 (f64 (1 / 10) * ((1 : ℕ) : ℚ))) = f32 (((1 : ℕ) : ℚ) / 10) ∧
    f32 (20 * f32 (((1 : ℕ) : ℚ) / 10)) = 2 * ((1 : ℕ) : ℚ) := by
  have hD : f64 (3602879701896397 / 36028797018963968 * 1) = 3602879701896397 / 36028797018963968 :=
    f64_eval _ _ (-4) 7205759403792794 (by norm_num) (by norm_num) (by norm_num) (by norm_num) (by norm_num) (by norm_num)
  have hQ : f32 (3602879701896397 / 36028797018963968) = 13421773 / 134217728 :=
    f32_eval _ _ (-4) 13421773 (by norm_num) (by norm_num) (by norm_num) (by norm_num) (by norm_num) (by norm_num)
  have hN : f32 (1 / 10) = 13421773 / 134217728 :=
    f32_eval _ _ (-4) 13421773 (by norm_num) (by norm_num) (by norm_num) (by norm_num) (by norm_num) (by norm_num)
  have hT : f32 (20 * (13421773 / 134217728)) = 2 :=
    f32_eval _ _ 1 8388608 (by norm_num) (by norm_num) (by norm_num) (by norm_num) (by norm_num) (by norm_num)
  simp only [Nat.cast_ofNat, Nat.cast_one]
  rw [f64_tenth, hD, hQ, hN, hT]
  norm_num

theorem table_2 : f32 (f64 (f64 (1 / 10) * ((2 : ℕ) : ℚ))) = f32 (((2 : ℕ) : ℚ) / 10) ∧
    f32 (20 * f32 (((2 : ℕ) : ℚ) / 10)) = 2 * ((2 : ℕ) : ℚ) := by
  have hD : f64 (3602879701896397 / 36028797018963968 * 2) = 3602879701896397 / 18014398509481984 :=
    f64_eval _ _ (-3) 7205759403792794 (by norm_num) (by norm_num) (by norm_num) (by norm_num) (by norm_num) (by norm_num)
  have hQ : f32 (3602879701896397 / 18014398509481984) = 13421773 / 67108864 :=
    f32_eval _ _ (-3) 13421773 (by norm_num) (by norm_num) (by norm_num) (by norm_num) (by norm_num) (by norm_num)
  have hN : f32 (2 / 10) = 13421773 / 67108864 :=
    f32_eval _ _ (-3) 13421773 (by norm_num) (by norm_num) (by norm_num) (by norm_num) (by norm_num) (by norm_num)
  have hT : f32 (20 * (13421773 / 67108864)) = 4 :=
    f32_eval _ _ 2 8388608 (by norm_num) (by norm_num) (by norm_num) (by norm_num) (by norm_num) (by norm_num)
  simp only [Nat.cast_ofNat, Nat.cast_one]
  rw [f64_tenth, hD, hQ, hN, hT]
  norm_num

theorem table_3 : f32 (f64 (f64 (1 / 10) * ((3 : ℕ) : ℚ))) = f32 (((3 : ℕ) : ℚ) / 10) ∧
    f32 (20 * f32 (((3 : ℕ) : ℚ) / 10)) = 2 * ((3 : ℕ) : ℚ) := by
  have hD : f64 (3602879701896397 / 36028797018963968 * 3) = 1351079888211149 / 4503599627370496 :=
    f64_tie _ _ (-2) 5404319552844595 (by norm_num) (by norm_num) (by norm_num) (by norm_num) (by norm_num)
  have hQ : f32 (1351079888211149 / 4503599627370496) = 5033165 / 16777216 :=
    f32_eval _ _ (-2) 10066330 (by norm_num) (by norm_num) (by norm_num) (by norm_num) (by norm_num) (by norm_num)
  have hN : f32 (3 / 10) = 5033165 / 16777216 :=
    f32_eval _ _ (-2) 10066330 (by norm_num) (by norm_num) (by norm_num) (by norm_num) (by norm_num) (by norm_num)
  have hT : f32 (20 * (5033165 / 16777216)) = 6 :=
    f32_tie _ _ 2 12582912 (by norm_num) (by norm_num) (by norm_num) (by norm_num) (by norm_num)
  simp only [Nat.cast_ofNat, Nat.cast_one]
  rw [f64_tenth, hD, hQ, hN, hT]
  norm_num

theorem table_4 : f32 (f64 (f64 (1 / 10) * ((4 : ℕ) : ℚ))) = f32 (((4 : ℕ) : ℚ) / 10) ∧
    f32 (20 * f32 (((4 : ℕ) : ℚ) / 10)) = 2 * ((4 : ℕ) : ℚ) := by
  have hD : f64 (3602879701896397 / 36028797018963968 * 4) = 3602879701896397 / 9007199254740992 :=
    f64_eval _ _ (-2) 7205759403792794 (by norm_num) (by norm_num) (by norm_num) (by norm_num) (by norm_num) (by norm_num)
  have hQ : f32 (3602879701896397 / 9007199254740992) = 13421773 / 33554432 :=
    f32_eval _ _ (-2) 13421773 (by norm_num) (by norm_num) (by norm_num) (by norm_num) (by norm_num) (by norm_num)
  have hN : f32 (4 / 10) = 13421773 / 33554432 :=
    f32_eval _ _ (-2) 13421773 (by norm_num) (by norm_num) (by norm_num) (by norm_num) (by norm_num) (by norm_num)
  have hT : f32 (20 * (13421773 / 33554432)) = 8 :=
    f32_eval _ _ 3 8388608 (by norm_num) (by norm_num) (by norm_num) (by norm_num) (by norm_num) (by norm_num)
  simp only [Nat.cast_ofNat, Nat.cast_one]
  rw [f64_tenth, hD, hQ, hN, hT]
  norm_num

theorem table_5 : f32 (f64 (f64 (1 / 10) * ((5 : ℕ) : ℚ))) = f32 (((5 : ℕ) : ℚ) / 10) ∧
    f32 (20 * f32 (((5 : ℕ) : ℚ) / 10)) = 2 * ((5 : ℕ) : ℚ) := by
  have hD : f64 (3602879701896397 / 36028797018963968 * 5) = 1 / 2 :=
    f64_eval _ _ (-1) 4503599627370496 (by norm_num) (by norm_num) (by norm_num) (by norm_num) (by norm_num) (by norm_num)
  have hQ : f32 (1 / 2) = 1 / 2 :=
    f32_eval _ _ (-1) 8388608 (by norm_num) (by norm_num) (by norm_num) (by norm_num) (by norm_num) (by norm_num)
  have hN : f32 (5 / 10) = 1 / 2 :=
    f32_eval _ _ (-1) 8388608 (by norm_num) (by norm_num) (by norm_num) (by norm_num) (by norm_num) (by norm_num)
  have hT : f32 (20 * (1 / 2)) = 10 :=
    f32_eval _ _ 3 10485760 (by norm_num) (by norm_num) (by norm_num) (by norm_num) (by norm_num) (by norm_num)
  simp only [Nat.cast_ofNat, Nat.cast_one]
  rw [f64_tenth, hD, hQ, hN, hT]
  norm_num

theorem table_6 : f32 (f64 (f64 (1 / 10) * ((6 : ℕ) : ℚ))) = f32 (((6 : ℕ) : ℚ) / 10) ∧
    f32 (20 * f32 (((6 : ℕ) : ℚ) / 10)) = 2 * ((6 : ℕ) : ℚ) := by
  have hD : f64 (3602879701896397 / 36028797018963968 * 6) = 1351079888211149 / 2251799813685248 :=
    f64_tie _ _ (-1) 5404319552844595 (by norm_num) (by norm_num) (by norm_num) (by norm_num) (by norm_num)
  have hQ : f32 (1351079888211149 / 2251799813685248) = 5033165 / 8388608 :=
    f32_eval _ _ (-1) 10066330 (by norm_num) (by norm_num) (by norm_num) (by norm_num) (by norm_num) (by norm_num)
  have hN : f32 (6 / 10) = 5033165 / 8388608 :=
    f32_eval _ _ (-1) 10066330 (by norm_num) (by norm_num) (by norm_num) (by norm_num) (by norm_num) (by norm_num)
  have hT : f32 (20 * (5033165 / 8388608)) = 12 :=
    f32_tie _ _ 3 12582912 (by norm_num) (by norm_num) (by norm_num) (by norm_num) (by norm_num)
  simp only [Nat.cast_ofNat, Nat.cast_one]
  rw [f64_tenth, hD, hQ, hN, hT]
  norm_num

theorem table_7 : f32 (f64 (f64 (1 / 10) * ((7 : ℕ) : ℚ))) = f32 (((7 : ℕ) : ℚ) / 10) ∧
    f32 (20 * f32 (((7 : ℕ) : ℚ) / 10)) = 2 * ((7 : ℕ) : ℚ) := by
  have hD : f64 (3602879701896397 / 36028797018963968 * 7) = 6305039478318695 / 9007199254740992 :=
    f64_eval _ _ (-1) 6305039478318695 (by norm_num) (by norm_num) (by norm_num) (by norm_num) (by norm_num) (by norm_num)
  have hQ : f32 (6305039478318695 / 9007199254740992) = 11744051 / 16777216 :=
    f32_eval _ _ (-1) 11744051 (by norm_num) (by norm_num) (by norm_num) (by norm_num) (by norm_num) (by norm_num)
  have hN : f32 (7 / 10) = 11744051 / 16777216 :=
    f32_eval _ _ (-1) 11744051 (by norm_num) (by norm_num) (by norm_num) (by norm_num) (by norm_num) (by norm_num)
  have hT : f32 (20 * (11744051 / 16777216)) = 14 :=
    f32_eval _ _ 3 14680064 (by norm_num) (by norm_num) (by norm_num) (by norm_num) (by norm_num) (by norm_num)
  simp only [Nat.cast_ofNat, Nat.cast_one]
  rw [f64_tenth, hD, hQ, hN, hT]
  norm_num

theorem table_8 : f32 (f64 (f64 (1 / 10) * ((8 : ℕ) : ℚ))) = f32 (((8 : ℕ) : ℚ) / 10) ∧
    f32 (20 * f32 (((8 : ℕ) : ℚ) / 10)) = 2 * ((8 : ℕ) : ℚ) := by
  have hD : f64 (3602879701896397 / 36028797018963968 * 8) = 3602879701896397 / 4503599627370496 :=
    f64_eval _ _ (-1) 7205759403792794 (by norm_num) (by norm_num) (by norm_num) (by norm_num) (by norm_num) (by norm_num)
  have hQ : f32 (3602879701896397 / 4503599627370496) = 13421773 / 16777216 :=
    f32_eval _ _ (-1) 13421773 (by norm_num) (by norm_num) (by norm_num) (by norm_num) (by norm_num) (by norm_num)
  have hN : f32 (8 / 10) = 13421773 / 16777216 :=
    f32_eval _ _ (-1) 13421773 (by norm_num) (by norm_num) (by norm_num) (by norm_num) (by norm_num) (by norm_num)
  have hT : f32 (20 * (13421773 / 16777216)) = 16 :=
    f32_eval _ _ 4 8388608 (by norm_num) (by norm_num) (by norm_num) (by norm_num) (by norm_num) (by norm_num)
  simp only [Nat.cast_ofNat, Nat.cast_one]
  rw [f64_tenth, hD, hQ, hN, hT]
  norm_num

theorem table_9 : f32 (f64 (f64 (1 / 10) * ((9 : ℕ) : ℚ))) = f32 (((9 : ℕ) : ℚ) / 10) ∧
    f32 (20 * f32 (((9 : ℕ) : ℚ) / 10)) = 2 * ((9 : ℕ) : ℚ) := by
  have hD : f64 (3602879701896397 / 36028797018963968 * 9) = 8106479329266893 / 9007199254740992 :=
    f64_eval _ _ (-1) 8106479329266893 (by norm_num) (by norm_num) (by norm_num) (by norm_num) (by norm_num) (by norm_num)
  have hQ : f32 (8106479329266893 / 9007199254740992) = 7549747 / 8388608 :=
    f32_eval _ _ (-1) 15099494 (by norm_num) (by norm_num) (by norm_num) (by norm_num) (by norm_num) (by norm_num)
  have hN : f32 (9 / 10) = 7549747 / 8388608 :=
    f32_eval _ _ (-1) 15099494 (by norm_num) (by norm_num) (by norm_num) (by norm_num) (by norm_num) (by norm_num)
  have hT : f32 (20 * (7549747 / 8388608)) = 18 :=
    f32_eval _ _ 4 9437184 (by norm_num) (by norm_num) (by norm_num) (by norm_num) (by norm_num) (by norm_num)
  simp only [Nat.cast_ofNat, Nat.cast_one]
  rw [f64_tenth, hD, hQ, hN, hT]
  norm_num

theorem table_10 : f32 (f64 (f64 (1 / 10) * ((10 : ℕ) : ℚ))) = f32 (((10 : ℕ) : ℚ) / 10) ∧
    f32 (20 * f32 (((10 : ℕ) : ℚ) / 10)) = 2 * ((10 : ℕ) : ℚ) := by
  have hD : f64 (3602879701896397 / 36028797018963968 * 10) = 1 :=
    f64_eval _ _ 0 4503599627370496 (by norm_num) (by norm_num) (by norm_num) (by norm_num) (by norm_num) (by norm_num)
  have hQ : f32 (1) = 1 :=
    f32_eval _ _ 0 8388608 (by norm_num) (by norm_num) (by norm_num) (by norm_num) (by norm_num) (by norm_num)
  have hN : f32 (10 / 10) = 1 :=
    f32_eval _ _ 0 8388608 (by norm_num) (by norm_num) (by norm_num) (by norm_num) (by norm_num) (by norm_num)
  have hT : f32 (20 * 1) = 20 :=
    f32_eval _ _ 4 10485760 (by norm_num) (by norm_num) (by norm_num) (by norm_num) (by norm_num) (by norm_num)
  simp only [Nat.cast_ofNat, Nat.cast_one]
  rw [f64_tenth, hD, hQ, hN, hT]
  norm_num

theorem table (k : ℕ) (hk : k ≤ 10) :
    f32 (f64 (f64 (1 / 10) * (k : ℚ))) = f32 ((k : ℚ) / 10) ∧
    f32 (20 * f32 ((k : ℚ) / 10)) = 2 * (k : ℚ) := by
  have h : k = 0 ∨ k = 1 ∨ k = 2 ∨ k = 3 ∨ k = 4 ∨ k = 5 ∨ k = 6 ∨ k = 7 ∨ k = 8 ∨ k = 9 ∨
      k = 10 := by omega
  rcases h with rfl | rfl | rfl | rfl | rfl | rfl | rfl | rfl | rfl | rfl | rfl
  exacts [table_0, table_1, table_2, table_3, table_4, table_5, table_6, table_7, table_8,
    table_9, table_10]

/-! ## The arithmetic of one reading -/

theorem f32_nat (n : ℕ) (h : n < 2 ^ 24) : f32 (n : ℚ) = n := by
  simpa using f32_int (n : ℤ) (by rw [abs_of_nonneg (by positivity)]; exact_mod_cast h)

theorem f64_nat (n : ℕ) (h : n < 2 ^ 53) : f64 (n : ℚ) = n := by
  simpa using f64_int (n : ℤ) (by rw [abs_of_nonneg (by positivity)]; exact_mod_cast h)

theorem div1024 (n : ℕ) : (n : ℚ) / 1024 = ((n : ℤ) : ℚ) * 2 ^ (-10 : ℤ) := by
  push_cast
  norm_num
  ring

theorem f32_div1024 (n : ℕ) (h : n < 2 ^ 24) : f32 ((n : ℚ) / 1024) = (n : ℚ) / 1024 := by
  rw [div1024]
  exact f32_exact n (-10) (by rw [abs_of_nonneg (by positivity)]; exact_mod_cast h) (by norm_num)

theorem f64_div1024 (n : ℕ) (h : n < 2 ^ 53) : f64 ((n : ℚ) / 1024) = (n : ℚ) / 1024 := by
  rw [div1024]
  exact f64_exact n (-10) (by rw [abs_of_nonneg (by positivity)]; exact_mod_cast h) (by norm_num)

theorem f64_half : f64 (1 / 2) = 1 / 2 := by
  have h := f64_exact 1 (-1) (by norm_num) (by norm_num)
  norm_num at h
  simpa using h

/-- Line 88 is exact: `val` is `pot / 1024`. -/
theorem readVal_eq (pot : ℕ) (h : pot < 1024) : readVal pot = (pot : ℚ) / 1024 := by
  unfold readVal
  have h1 : f64 1024 = 1024 := by simpa using f64_nat 1024 (by norm_num)
  rw [f32_nat pot (by omega), h1, f64_div1024 pot (by omega), f32_div1024 pot (by omega)]

/-- The integer of line 89 is `10 * pot / 1024` rounded half up, computed without error. -/
theorem quantStep_eq (pot : ℕ) (h : pot < 1024) :
    quantStep ((pot : ℚ) / 1024) = (((10 * pot + 512) / 1024 : ℕ) : ℤ) := by
  unfold quantStep
  have h1 : f64 10 = 10 := by simpa using f64_nat 10 (by norm_num)
  have h2 : (10 : ℚ) * ((pot : ℚ) / 1024) = ((10 * pot : ℕ) : ℚ) / 1024 := by
    push_cast; ring
  have h3 : ((10 * pot : ℕ) : ℚ) / 1024 + 1 / 2 = ((10 * pot + 512 : ℕ) : ℚ) / 1024 := by
    push_cast; ring
  rw [h1, f64_half, h2, f64_div1024 _ (by omega), h3, f64_div1024 _ (by omega)]
  unfold truncToInt
  rw [if_pos (by positivity)]
  have := Rat.floor_natCast_div_natCast (10 * pot + 512) 1024
  simpa using this

theorem quantStep_le (pot : ℕ) (h : pot < 1024) : (10 * pot + 512) / 1024 ≤ 10 := by
  omega

/-- Line 89 yields the `float` nearest to `k / 10`, for `k` the rounded step. -/
theorem quantize_eq (pot : ℕ) (h : pot < 1024) :
    quantize (readVal pot) = f32 ((((10 * pot + 512) / 1024 : ℕ) : ℚ) / 10) := by
  rw [readVal_eq pot h]
  unfold quantize
  rw [quantStep_eq pot h, Int.cast_natCast, f32_nat _ (by omega)]
  exact (table _ (quantStep_le pot h)).1

theorem min_gain_dB_eq : min_gain_dB = -20 := by
  unfold min_gain_dB
  have h1 : f64 20 = 20 := by simpa using f64_nat 20 (by norm_num)
  rw [h1]
  simpa using f32_int (-20) (by norm_num)

theorem max_gain_dB_eq : max_gain_dB = 0 := by
  simp [max_gain_dB, f32, f64, roundFloat_zero]

/-- Line 95 on the `float` nearest to `k / 10` gives exactly `-20 + 2 * k`. -/
theorem mapGain_tenth (k : ℕ) (hk : k ≤ 10) :
    mapGain (f32 ((k : ℚ) / 10)) = -20 + 2 * (k : ℚ) := by
  unfold mapGain
  rw [min_gain_dB_eq, max_gain_dB_eq]
  have h1 : f32 ((0 : ℚ) - -20) = 20 := by
    have := f32_nat 20 (by norm_num)
    norm_num
    simpa using this
  rw [h1, (table k hk).2]
  have h2 : (-20 : ℚ) + 2 * (k : ℚ) = ((-20 + 2 * (k : ℤ) : ℤ) : ℚ) := by push_cast; ring
  rw [h2]
  exact f32_int _ (by rw [abs_lt]; constructor <;> omega)

/-- Lines 88 to 95 give exactly `-20 + 2 * k`, for `k` the rounded step. -/
theorem gain_dB_eq (pot : ℕ) (h : pot < 1024) :
    gain_dB pot = -20 + 2 * (((10 * pot + 512) / 1024 : ℕ) : ℚ) := by
  unfold gain_dB
  rw [quantize_eq pot h, mapGain_tenth _ (quantStep_le pot h)]

theorem truncToInt_intCast (n : ℤ) : truncToInt (n : ℚ) = n := by
  simp [truncToInt]

theorem f64_one : f64 1 = 1 := by
  simpa using f64_nat 1 (by norm_num)

/-- The test of line 98 on an even gain `-20 + 2 * k` and any `int`: the
conversions and the `float` subtraction never change its outcome. -/
theorem gainChanged_iff (k : ℕ) (hk : k ≤ 10) (p : ℤ) :
    gainChanged (-20 + 2 * (k : ℚ)) p = true ↔ 1 < |(-20 + 2 * (k : ℚ)) - (p : ℚ)| := by
  unfold gainChanged
  rw [decide_eq_true_iff, f64_one]
  have hg : (-20 : ℚ) + 2 * (k : ℚ) = ((-20 + 2 * (k : ℤ) : ℤ) : ℚ) := by push_cast; ring
  rcases lt_or_le |p| (2 ^ 23) with hp | hp
  · have h1 : f32 (p : ℚ) = p := f32_int p (by omega)
    rw [h1, hg, ← Int.cast_sub]
    rw [f32_int _ (by rw [abs_lt] at hp ⊢; constructor <;> omega)]
  · have e23 : (2 : ℚ) ^ (23 : ℤ) = 8388608 := by norm_num
    have e22 : (2 : ℚ) ^ (22 : ℤ) = 4194304 := by norm_num
    have hpq : (2 : ℚ) ^ (23 : ℤ) ≤ |(p : ℚ)| := by
      have hp' : (8388608 : ℤ) ≤ |p| := by norm_num at hp; exact hp
      have : ((8388608 : ℤ) : ℚ) ≤ ((|p| : ℤ) : ℚ) := Int.cast_le.mpr hp'
      rw [e23]
      simpa using this
    have h1 : (2 : ℚ) ^ (23 : ℤ) ≤ |f32 (p : ℚ)| :=
      roundFloat_abs_ge 24 (-126) _ 23 (by norm_num) (by norm_num) hpq
    have hgb : |(-20 : ℚ) + 2 * (k : ℚ)| ≤ 20 := by
      have : (k : ℚ) ≤ 10 := by exact_mod_cast hk
      have : (0 : ℚ) ≤ k := by positivity
      rw [abs_le]; constructor <;> linarith
    have h2 : (2 : ℚ) ^ (22 : ℤ) ≤ |(-20 + 2 * (k : ℚ)) - f32 (p : ℚ)| := by
      have := abs_sub_abs_le_abs_sub (f32 (p : ℚ)) (-20 + 2 * (k : ℚ))
      rw [abs_sub_comm] at this
      rw [e23] at h1
      rw [e22]
      linarith
    have h3 : (2 : ℚ) ^ (22 : ℤ) ≤ |f32 ((-20 + 2 * (k : ℚ)) - f32 (p : ℚ))| :=
      roundFloat_abs_ge 24 (-126) _ 22 (by norm_num) (by norm_num) h2
    have h4 : (1 : ℚ) < |(-20 + 2 * (k : ℚ)) - (p : ℚ)| := by
      have := abs_sub_abs_le_abs_sub (p : ℚ) (-20 + 2 * (k : ℚ))
      rw [abs_sub_comm] at this
      rw [e23] at hpq
      linarith
    rw [e22] at h3
    constructor
    · intro _; exact h4
    · intro _; linarith

/-! ## Lemmas on the state transformers -/

theorem updateAttempt_changed (s : State) (pot : ℕ)
    (h : gainChanged (gain_dB pot) s.prev_gain_dB = true) :
    updateAttempt s pot =
      { s with lastUpdate_millis := s.curTime_millis, potReads := s.potReads + 1,
               gain1 := gain_dB pot :: s.gain1, gain2 := gain_dB pot :: s.gain2,
               serial := gain_dB pot :: s.serial,
               prev_gain_dB := truncToInt (gain_dB pot) } := by
  simp [updateAttempt, applyGain, h]

theorem updateAttempt_unchanged (s : State) (pot : ℕ)
    (h : gainChanged (gain_dB pot) s.prev_gain_dB = false) :
    updateAttempt s pot =
      { s with lastUpdate_millis := s.curTime_millis, potReads := s.potReads + 1 } := by
  simp [updateAttempt, applyGain, h]

/-- Lines 81 to 83: only the two time stamps change. -/
theorem wrapGuard_readClock (s : State) (now : ℕ) :
    (wrapGuard (readClock s now)).curTime_millis = now ∧
    (wrapGuard (readClock s now)).prev_gain_dB = s.prev_gain_dB ∧
    (wrapGuard (readClock s now)).gain1 = s.gain1 ∧ (wrapGuard (readClock s now)).gain2 = s.gain2 ∧
    (wrapGuard (readClock s now)).serial = s.serial ∧
    (wrapGuard (readClock s now)).potReads = s.potReads ∧
    (wrapGuard (readClock s now)).lastUpdate_millis
      = if now < s.lastUpdate_millis then 0 else s.lastUpdate_millis := by
  unfold wrapGuard readClock
  split_ifs <;> simp

theorem updateAttempt_times (s : State) (pot : ℕ) :
    (updateAttempt s pot).lastUpdate_millis = s.curTime_millis ∧
    (updateAttempt s pot).curTime_millis = s.curTime_millis ∧
    (updateAttempt s pot).potReads = s.potReads + 1 := by
  cases h : gainChanged (gain_dB pot) s.prev_gain_dB
  · rw [updateAttempt_unchanged s pot h]; simp
  · rw [updateAttempt_changed s pot h]; simp

/-- The gain of a reading, as an integer. -/
theorem gain_dB_int (pot : ℕ) (h : pot < 1024) :
    gain_dB pot = ((-20 + 2 * (((10 * pot + 512) / 1024 : ℕ) : ℤ) : ℤ) : ℚ) := by
  rw [gain_dB_eq pot h]
  simp only [Int.cast_add, Int.cast_mul, Int.cast_neg, Int.cast_ofNat, Int.cast_natCast]

/-- What an update attempt does to the gain fields, for any previous gain. -/
theorem updateAttempt_gain (s : State) (pot : ℕ) (hpot : pot < 1024) :
    (1 < |gain_dB pot - (s.prev_gain_dB : ℚ)| →
      (updateAttempt s pot).gain1 = gain_dB pot :: s.gain1 ∧
      (updateAttempt s pot).gain2 = gain_dB pot :: s.gain2 ∧
      (updateAttempt s pot).serial = gain_dB pot :: s.serial ∧
      ((updateAttempt s pot).prev_gain_dB : ℚ) = gain_dB pot) ∧
    (¬ 1 < |gain_dB pot - (s.prev_gain_dB : ℚ)| →
      (updateAttempt s pot).gain1 = s.gain1 ∧
      (updateAttempt s pot).gain2 = s.gain2 ∧
      (updateAttempt s pot).serial = s.serial ∧
      (updateAttempt s pot).prev_gain_dB = s.prev_gain_dB) := by
  have hiff := gainChanged_iff _ (quantStep_le pot hpot) s.prev_gain_dB
  rw [← gain_dB_eq pot hpot] at hiff
  constructor
  · intro h
    rw [updateAttempt_changed s pot (hiff.mpr h)]
    refine ⟨rfl, rfl, rfl, ?_⟩
    show ((truncToInt (gain_dB pot) : ℤ) : ℚ) = gain_dB pot
    rw [gain_dB_int pot hpot, truncToInt_intCast]
  · intro h
    have hf : gainChanged (gain_dB pot) s.prev_gain_dB = false := by
      cases hc : gainChanged (gain_dB pot) s.prev_gain_dB
      · rfl
      · exact absurd (hiff.mp hc) h
    rw [updateAttempt_unchanged s pot hf]
    exact ⟨rfl, rfl, rfl, rfl⟩

/-! ## Quantization and gain mapping -/

/-- Rounding `10 * pot / 1024` half up, in integer arithmetic. -/
theorem roundHalfUp_eq (pot : ℕ) :
    roundHalfUp (10 * ((pot : ℚ) / 1024)) = (((10 * pot + 512) / 1024 : ℕ) : ℤ) := by
  unfold roundHalfUp
  have h3 : 10 * ((pot : ℚ) / 1024) + 1 / 2 = ((10 * pot + 512 : ℕ) : ℚ) / ((1024 : ℕ) : ℚ) := by
    push_cast; ring
  rw [h3, Rat.floor_natCast_div_natCast]
  norm_cast

/-- C1: for every raw reading `pot` in 0..1023, line 88 gives `v = pot / 1024`
exactly; the integer of line 89 is `10 * v` rounded half up, with no rounding
error, and is one of 0..10; and the quantized `float` is the `float` value of
`round(10 v) / 10`, hence one of the eleven `float` values of `k / 10`, `k = 0..10`. -/
theorem C1_quantize_round_half_up (pot : ℕ) (hpot : pot < 1024) :
    readVal pot = (pot : ℚ) / 1024 ∧
    quantStep (readVal pot) = roundHalfUp (10 * ((pot : ℚ) / 1024)) ∧
    (0 ≤ quantStep (readVal pot) ∧ quantStep (readVal pot) ≤ 10) ∧
    quantize (readVal pot) = f32 ((roundHalfUp (10 * ((pot : ℚ) / 1024)) : ℚ) / 10) ∧
    ∃ k : ℕ, k ≤ 10 ∧ quantize (readVal pot) = f32 ((k : ℚ) / 10) := by
  have hk := quantStep_le pot hpot
  have hr := roundHalfUp_eq pot
  have hq : quantStep (readVal pot) = (((10 * pot + 512) / 1024 : ℕ) : ℤ) := by
    rw [readVal_eq pot hpot, quantStep_eq pot hpot]
  refine ⟨readVal_eq pot hpot, by rw [hq, hr], ?_, ?_, _, hk, quantize_eq pot hpot⟩
  · rw [hq]; constructor <;> omega
  · rw [quantize_eq pot hpot, hr, Int.cast_natCast]

/-- Witness of C1 at the reading 542. -/
theorem C1_quantize_round_half_up_witness :
    (542 : ℕ) < 1024 ∧
    quantize (readVal 542) = f32 ((roundHalfUp (10 * (((542 : ℕ) : ℚ) / 1024)) : ℚ) / 10) :=
  ⟨by decide, (C1_quantize_round_half_up 542 (by decide)).2.2.2.1⟩

/-- C2: for every raw reading `pot` in 0..1023 the gain of line 95 is the `float`
expression `-20 + 20 * q` of the quantized `q` (the range `max - min` is 20), its
value is exactly `-20 + 20 * (k / 10)` for the rounded step `k`, and it lies in
the closed range from -20 to 0. -/
theorem C2_gain_range (pot : ℕ) (hpot : pot < 1024) :
    gain_dB pot = f32 (-20 + f32 (20 * quantize (readVal pot))) ∧
    gain_dB pot = -20 + 20 * ((roundHalfUp (10 * ((pot : ℚ) / 1024)) : ℚ) / 10) ∧
    -20 ≤ gain_dB pot ∧ gain_dB pot ≤ 0 := by
  have hk := quantStep_le pot hpot
  have hr := roundHalfUp_eq pot
  have h20 : f32 (max_gain_dB - min_gain_dB) = 20 := by
    rw [min_gain_dB_eq, max_gain_dB_eq]
    have := f32_nat 20 (by norm_num)
    norm_num
    simpa using this
  have hkq : ((((10 * pot + 512) / 1024 : ℕ) : ℕ) : ℚ) ≤ 10 := by exact_mod_cast hk
  have hk0 : (0 : ℚ) ≤ (((10 * pot + 512) / 1024 : ℕ) : ℚ) := by positivity
  refine ⟨?_, ?_, ?_, ?_⟩
  · show mapGain (quantize (readVal pot)) = _
    unfold mapGain
    rw [h20, min_gain_dB_eq]
  · rw [gain_dB_eq pot hpot, hr, Int.cast_natCast]; ring
  · rw [gain_dB_eq pot hpot]; linarith
  · rw [gain_dB_eq pot hpot]; linarith

/-- Witness of C2 at the reading 1023. -/
theorem C2_gain_range_witness :
    (1023 : ℕ) < 1024 ∧ -20 ≤ gain_dB 1023 ∧ gain_dB 1023 ≤ 0 :=
  ⟨by decide, (C2_gain_range 1023 (by decide)).2.2⟩

theorem quantStep_zero : quantStep 0 = 0 := by
  unfold quantStep
  rw [mul_zero, show f64 0 = 0 from roundFloat_zero _ _, zero_add, f64_half, f64_half]
  unfold truncToInt
  rw [if_pos (by norm_num)]
  exact Int.floor_eq_iff.mpr ⟨by norm_num, by norm_num⟩

theorem quantStep_one : quantStep 1 = 10 := by
  unfold quantStep
  have h1 : f64 10 = 10 := by simpa using f64_nat 10 (by norm_num)
  have h2 : f64 (10 + 1 / 2) = 21 / 2 :=
    f64_eval _ _ 3 5910974510923776 (by norm_num) (by norm_num) (by norm_num) (by norm_num)
      (by norm_num) (by norm_num)
  rw [h1, mul_one, h1, f64_half, h2]
  unfold truncToInt
  rw [if_pos (by norm_num)]
  exact Int.floor_eq_iff.mpr ⟨by norm_num, by norm_num⟩

/-- Lines 89 and 95 on a value whose rounded step is `k`. -/
theorem quantize_of_step (v : ℚ) (k : ℕ) (hk : k ≤ 10) (h : quantStep v = (k : ℤ)) :
    quantize v = f32 ((k : ℚ) / 10) ∧ mapGain (quantize v) = -20 + 2 * (k : ℚ) := by
  have hq : quantize v = f32 ((k : ℚ) / 10) := by
    unfold quantize
    rw [h, Int.cast_natCast, f32_nat _ (by omega)]
    exact (table k hk).1
  exact ⟨hq, by rw [hq, mapGain_tenth k hk]⟩

theorem f32_053 : f32 (53 / 100) = 2222981 / 4194304 :=
  f32_eval _ _ (-1) 8891924 (by norm_num) (by norm_num) (by norm_num) (by norm_num)
    (by norm_num) (by norm_num)

theorem quantStep_f32_053 : quantStep (2222981 / 4194304) = 5 := by
  unfold quantStep
  have h1 : f64 10 = 10 := by simpa using f64_nat 10 (by norm_num)
  have h2 : f64 (10 * (2222981 / 4194304)) = 11114905 / 2097152 :=
    f64_eval _ _ 2 5967269184143360 (by norm_num) (by norm_num) (by norm_num) (by norm_num)
      (by norm_num) (by norm_num)
  have h3 : f64 (11114905 / 2097152 + 1 / 2) = 12163481 / 2097152 :=
    f64_eval _ _ 2 6530219137564672 (by norm_num) (by norm_num) (by norm_num) (by norm_num)
      (by norm_num) (by norm_num)
  rw [h1, h2, f64_half, h3]
  unfold truncToInt
  rw [if_pos (by norm_num)]
  exact Int.floor_eq_iff.mpr ⟨by norm_num, by norm_num⟩

theorem quantStep_053 : quantStep (53 / 100) = 5 := by
  unfold quantStep
  have h1 : f64 10 = 10 := by simpa using f64_nat 10 (by norm_num)
  have h2 : f64 (10 * (53 / 100)) = 5967269506265907 / 1125899906842624 :=
    f64_eval _ _ 2 5967269506265907 (by norm_num) (by norm_num) (by norm_num) (by norm_num)
      (by norm_num) (by norm_num)
  have h3 : f64 (5967269506265907 / 1125899906842624 + 1 / 2)
      = 6530219459687219 / 1125899906842624 :=
    f64_eval _ _ 2 6530219459687219 (by norm_num) (by norm_num) (by norm_num) (by norm_num)
      (by norm_num) (by norm_num)
  rw [h1, h2, f64_half, h3]
  unfold truncToInt
  rw [if_pos (by norm_num)]
  exact Int.floor_eq_iff.mpr ⟨by norm_num, by norm_num⟩

theorem f32_tenths_exact : f32 (((0 : ℕ) : ℚ) / 10) = 0 ∧ f32 (((5 : ℕ) : ℚ) / 10) = 1 / 2 ∧
    f32 (((10 : ℕ) : ℚ) / 10) = 1 := by
  refine ⟨?_, ?_, ?_⟩
  · simp [f32, roundFloat_zero]
  · have h := f32_exact 1 (-1) (by norm_num) (by norm_num)
    norm_num at h ⊢
    simpa using h
  · have h := f32_nat 1 (by norm_num)
    norm_num at h ⊢
    simpa using h

/-- C7: the quantize-then-map computation of lines 89 and 95 on the three
example values: `v = 0.0` gives `q = 0.0` and -20 dB; `v = 1.0` gives `q = 1.0`
and 0 dB; `v = 0.53` gives `q = 0.5` and -10 dB, both for the `float` nearest to
0.53, which is what the variable `val` can hold, and for 0.53 itself. -/
theorem C7_examples :
    (quantize 0 = 0 ∧ mapGain (quantize 0) = -20) ∧
    (quantize 1 = 1 ∧ mapGain (quantize 1) = 0) ∧
    (quantize (f32 (53 / 100)) = 1 / 2 ∧ mapGain (quantize (f32 (53 / 100))) = -10) ∧
    (quantize (53 / 100) = 1 / 2 ∧ mapGain (quantize (53 / 100)) = -10) := by
  obtain ⟨e0, e5, e10⟩ := f32_tenths_exact
  have a := quantize_of_step 0 0 (by norm_num) (by rw [quantStep_zero]; rfl)
  have b := quantize_of_step 1 10 (by norm_num) (by rw [quantStep_one]; rfl)
  have c := quantize_of_step (2222981 / 4194304) 5 (by norm_num)
    (by rw [quantStep_f32_053]; rfl)
  have d := quantize_of_step (53 / 100) 5 (by norm_num) (by rw [quantStep_053]; rfl)
  rw [e0] at a
  rw [e10] at b
  rw [e5] at c d
  rw [f32_053]
  refine ⟨⟨a.1, ?_⟩, ⟨b.1, ?_⟩, ⟨c.1, ?_⟩, ⟨d.1, ?_⟩⟩
  · rw [a.2]; norm_num
  · rw [b.2]; norm_num
  · rw [c.2]; norm_num
  · rw [d.2]; norm_num

/-! ## The controller -/

theorem elapsed_wrapGuard (s : State) (now : ℕ) (hnow : now < 2 ^ 32) :
    (wrapGuard (readClock s now)).lastUpdate_millis ≤ now ∧
    elapsed (wrapGuard (readClock s now))
      = now - (wrapGuard (readClock s now)).lastUpdate_millis := by
  obtain ⟨hc, -, -, -, -, -, hl⟩ := wrapGuard_readClock s now
  unfold elapsed sub32
  rw [hc, hl]
  norm_num at hnow ⊢
  split_ifs <;> omega

/-- What one invocation of `loop()` does, by the outcome of the elapsed-time test. -/
theorem loop_cases (s : State) (now pot : ℕ) :
    (updatePeriod_millis < elapsed (wrapGuard (readClock s now)) →
      loop s now pot = updateAttempt (wrapGuard (readClock s now)) pot) ∧
    (¬ updatePeriod_millis < elapsed (wrapGuard (readClock s now)) →
      loop s now pot = wrapGuard (readClock s now)) := by
  unfold loop
  constructor <;> intro h <;> simp [h]

/-- The potentiometer reads and the last-update time after one invocation of
`loop()`, by the elapsed time left by the guard. -/
theorem loop_times (s : State) (now pot : ℕ) (hnow : now < 2 ^ 32) :
    (100 < now - (if now < s.lastUpdate_millis then 0 else s.lastUpdate_millis) →
      (loop s now pot).potReads = s.potReads + 1 ∧ (loop s now pot).lastUpdate_millis = now) ∧
    (now - (if now < s.lastUpdate_millis then 0 else s.lastUpdate_millis) ≤ 100 →
      (loop s now pot).potReads = s.potReads ∧
      (loop s now pot).lastUpdate_millis
        = if now < s.lastUpdate_millis then 0 else s.lastUpdate_millis) := by
  obtain ⟨-, he⟩ := elapsed_wrapGuard s now hnow
  obtain ⟨hc, -, -, -, -, hp, hl⟩ := wrapGuard_readClock s now
  obtain ⟨l1, l2⟩ := loop_cases s now pot
  obtain ⟨a, -, c⟩ := updateAttempt_times (wrapGuard (readClock s now)) pot
  rw [he, hl] at l1 l2
  constructor
  · intro h
    rw [l1 h, a, c, hc, hp]
    exact ⟨rfl, rfl⟩
  · intro h
    rw [l2 (by unfold updatePeriod_millis; omega), hp, hl]
    exact ⟨rfl, rfl⟩

/-- C3: in an update attempt with computed gain `g` (from a reading in 0..1023)
and previous gain `p`, the gain `g` is pushed to both channel gain processors,
printed, and becomes the previous gain if and only if `|g - p| > 1`; otherwise
the channel gains, the serial output and the previous gain are unchanged. -/
theorem C3_push_iff_threshold (s : State) (pot : ℕ) (hpot : pot < 1024) :
    (((updateAttempt s pot).gain1 = gain_dB pot :: s.gain1 ∧
      (updateAttempt s pot).gain2 = gain_dB pot :: s.gain2 ∧
      ((updateAttempt s pot).prev_gain_dB : ℚ) = gain_dB pot) ↔
        1 < |gain_dB pot - (s.prev_gain_dB : ℚ)|) ∧
    (1 < |gain_dB pot - (s.prev_gain_dB : ℚ)| →
      (updateAttempt s pot).serial = gain_dB pot :: s.serial) ∧
    (¬ 1 < |gain_dB pot - (s.prev_gain_dB : ℚ)| →
      (updateAttempt s pot).gain1 = s.gain1 ∧ (updateAttempt s pot).gain2 = s.gain2 ∧
      (updateAttempt s pot).serial = s.serial ∧
      (updateAttempt s pot).prev_gain_dB = s.prev_gain_dB) := by
  obtain ⟨h1, h2⟩ := updateAttempt_gain s pot hpot
  refine ⟨⟨?_, fun h => ⟨(h1 h).1, (h1 h).2.1, (h1 h).2.2.2⟩⟩, fun h => (h1 h).2.2.1, h2⟩
  intro h
  by_contra hn
  have := (h2 hn).1
  rw [h.1] at this
  exact List.cons_ne_self _ _ this

/-- Witness of C3: a state with previous gain 0 and the reading 600 (gain -8 dB). -/
theorem C3_push_iff_threshold_witness :
    (600 : ℕ) < 1024 ∧
    (((updateAttempt init 600).gain1 = gain_dB 600 :: init.gain1 ∧
      (updateAttempt init 600).gain2 = gain_dB 600 :: init.gain2 ∧
      ((updateAttempt init 600).prev_gain_dB : ℚ) = gain_dB 600) ↔
        1 < |gain_dB 600 - (init.prev_gain_dB : ℚ)|) :=
  ⟨by decide, (C3_push_iff_threshold init 600 (by decide)).1⟩

/-- C4 as stated fails. The first invocation, at time 4294967246, makes an
update attempt and records that time. The counter then wraps, and the second
invocation, 60 ms later at time 10, sees a current time below the last-update
time: the guard resets the last-update time to 0, yet no update attempt
follows: the potentiometer is not read and the time 10 is not recorded. -/
theorem C4_counterexample :
    (loop init 4294967246 512).lastUpdate_millis = 4294967246 ∧
    (loop init 4294967246 512).potReads = 1 ∧
    (10 : ℕ) < (loop init 4294967246 512).lastUpdate_millis ∧
    (loop (loop init 4294967246 512) 10 512).potReads = 1 ∧
    (loop (loop init 4294967246 512) 10 512).lastUpdate_millis = 0 := by
  have h0 : init.lastUpdate_millis = 0 := rfl
  have hp : init.potReads = 0 := rfl
  have A := (loop_times init 4294967246 512 (by norm_num)).1 (by rw [h0]; norm_num)
  rw [hp] at A
  have B := (loop_times (loop init 4294967246 512) 10 512 (by norm_num)).2
    (by rw [A.2]; norm_num)
  rw [A.2, A.1] at B
  refine ⟨A.2, by rw [A.1], by rw [A.2]; norm_num, by rw [B.1], ?_⟩
  rw [B.2]
  norm_num

/-- C4, amended: when the current time is below the last-update time, `loop()`
resets the last-update time to 0, so the elapsed time tested is the current time
itself; an update attempt follows (the potentiometer is read and the current
time recorded) exactly when the current time exceeds 100 ms, and otherwise the
potentiometer is not read and the last-update time stays 0. -/
theorem C4_guard_reset (s : State) (now pot : ℕ) (hnow : now < 2 ^ 32)
    (hwrap : now < s.lastUpdate_millis) :
    (wrapGuard (readClock s now)).lastUpdate_millis = 0 ∧
    elapsed (wrapGuard (readClock s now)) = now ∧
    ((loop s now pot).potReads = s.potReads + 1 ↔ 100 < now) ∧
    (100 < now → (loop s now pot).potReads = s.potReads + 1 ∧
      (loop s now pot).lastUpdate_millis = now) ∧
    (now ≤ 100 → (loop s now pot).potReads = s.potReads ∧
      (loop s now pot).lastUpdate_millis = 0) := by
  obtain ⟨hc, -, -, -, -, hp, hl⟩ := wrapGuard_readClock s now
  rw [if_pos hwrap] at hl
  have he : elapsed (wrapGuard (readClock s now)) = now := by
    rw [(elapsed_wrapGuard s now hnow).2, hl]; rfl
  obtain ⟨l1, l2⟩ := loop_cases s now pot
  rw [he] at l1 l2
  obtain ⟨a, -, c⟩ := updateAttempt_times (wrapGuard (readClock s now)) pot
  have hyes : 100 < now → (loop s now pot).potReads = s.potReads + 1 ∧
      (loop s now pot).lastUpdate_millis = now := by
    intro h
    rw [l1 h, a, c, hc, hp]
    exact ⟨rfl, rfl⟩
  have hno : now ≤ 100 → (loop s now pot).potReads = s.potReads ∧
      (loop s now pot).lastUpdate_millis = 0 := by
    intro h
    rw [l2 (by unfold updatePeriod_millis; omega), hp, hl]
    exact ⟨rfl, rfl⟩
  refine ⟨hl, he, ⟨?_, fun h => (hyes h).1⟩, hyes, hno⟩
  intro h
  by_contra hn
  have := (hno (by omega)).1
  omega

/-- Witness of C4 amended: last update at 4294967246, current time 10. -/
theorem C4_guard_reset_witness :
    (10 : ℕ) < 2 ^ 32 ∧ (10 : ℕ) < 4294967246 ∧
    (wrapGuard (readClock { init with lastUpdate_millis := 4294967246 } 10)).lastUpdate_millis = 0 :=
  ⟨by norm_num, by decide,
   (C4_guard_reset { init with lastUpdate_millis := 4294967246 } 10 512 (by norm_num)
      (by decide)).1⟩

/-- C5: an invocation of `loop()` at a 32-bit time `now` makes an update attempt
(reads the potentiometer) exactly when the elapsed time, current time minus the
last-update time left by the wraparound guard, is strictly greater than 100 ms;
every update attempt ends with the last-update time equal to the current time;
and when the elapsed time is 100 ms or less the potentiometer is not read, the
previous gain, both channel gains and the serial output are unchanged, and the
last-update time is the one the guard left, the current time not being recorded. -/
theorem C5_update_period (s : State) (now pot : ℕ) (hnow : now < 2 ^ 32) :
    (wrapGuard (readClock s now)).lastUpdate_millis ≤ now ∧
    ((loop s now pot).potReads = s.potReads + 1 ↔
      100 < now - (wrapGuard (readClock s now)).lastUpdate_millis) ∧
    (100 < now - (wrapGuard (readClock s now)).lastUpdate_millis →
      (loop s now pot).potReads = s.potReads + 1 ∧
      (loop s now pot).lastUpdate_millis = now) ∧
    (now - (wrapGuard (readClock s now)).lastUpdate_millis ≤ 100 →
      (loop s now pot).potReads = s.potReads ∧
      (loop s now pot).prev_gain_dB = s.prev_gain_dB ∧
      (loop s now pot).gain1 = s.gain1 ∧ (loop s now pot).gain2 = s.gain2 ∧
      (loop s now pot).serial = s.serial ∧
      (loop s now pot).lastUpdate_millis
        = (wrapGuard (readClock s now)).lastUpdate_millis) := by
  obtain ⟨hle, he⟩ := elapsed_wrapGuard s now hnow
  obtain ⟨hc, hv, hg1, hg2, hse, hp, -⟩ := wrapGuard_readClock s now
  obtain ⟨l1, l2⟩ := loop_cases s now pot
  rw [he] at l1 l2
  obtain ⟨a, -, c⟩ := updateAttempt_times (wrapGuard (readClock s now)) pot
  have hyes : 100 < now - (wrapGuard (readClock s now)).lastUpdate_millis →
      (loop s now pot).potReads = s.potReads + 1 ∧
      (loop s now pot).lastUpdate_millis = now := by
    intro h
    rw [l1 h, a, c, hc, hp]
    exact ⟨rfl, rfl⟩
  have hno : now - (wrapGuard (readClock s now)).lastUpdate_millis ≤ 100 →
      (loop s now pot).potReads = s.potReads ∧
      (loop s now pot).prev_gain_dB = s.prev_gain_dB ∧
      (loop s now pot).gain1 = s.gain1 ∧ (loop s now pot).gain2 = s.gain2 ∧
      (loop s now pot).serial = s.serial ∧
      (loop s now pot).lastUpdate_millis
        = (wrapGuard (readClock s now)).lastUpdate_millis := by
    intro h
    rw [l2 (by unfold updatePeriod_millis; omega), hp, hv, hg1, hg2, hse]
    exact ⟨rfl, rfl, rfl, rfl, rfl, rfl⟩
  refine ⟨hle, ⟨?_, fun h => (hyes h).1⟩, hyes, hno⟩
  intro h
  by_contra hn
  have := (hno (by omega)).1
  omega

/-- Witness of C5: from the boot state at time 101. -/
theorem C5_update_period_witness :
    (101 : ℕ) < 2 ^ 32 ∧
    ((loop init 101 512).potReads = init.potReads + 1 ↔
      100 < 101 - (wrapGuard (readClock init 101)).lastUpdate_millis) :=
  ⟨by norm_num, (C5_update_period init 101 512 (by norm_num)).2.1⟩

/-- C6: for every controller state and every reading in 0..1023, when an update
attempt is followed by a second update attempt with the same reading (at any
later time `t`), the second attempt pushes no gain to either channel, prints
nothing, and leaves the previous gain as the first attempt left it. -/
theorem C6_second_attempt_idle (s : State) (pot t : ℕ) (hpot : pot < 1024) :
    (updateAttempt (wrapGuard (readClock (updateAttempt s pot) t)) pot).gain1
      = (updateAttempt s pot).gain1 ∧
    (updateAttempt (wrapGuard (readClock (updateAttempt s pot) t)) pot).gain2
      = (updateAttempt s pot).gain2 ∧
    (updateAttempt (wrapGuard (readClock (updateAttempt s pot) t)) pot).serial
      = (updateAttempt s pot).serial ∧
    (updateAttempt (wrapGuard (readClock (updateAttempt s pot) t)) pot).prev_gain_dB
      = (updateAttempt s pot).prev_gain_dB := by
  obtain ⟨-, hv, hg1, hg2, hse, -, -⟩ :=
    wrapGuard_readClock (updateAttempt s pot) t
  obtain ⟨h1, h2⟩ := updateAttempt_gain s pot hpot
  have hsmall : ¬ 1 < |gain_dB pot - ((updateAttempt s pot).prev_gain_dB : ℚ)| := by
    by_cases h : 1 < |gain_dB pot - (s.prev_gain_dB : ℚ)|
    · rw [(h1 h).2.2.2, sub_self, abs_zero]; norm_num
    · rw [(h2 h).2.2.2]; exact h
  obtain ⟨-, k2⟩ := updateAttempt_gain (wrapGuard (readClock (updateAttempt s pot) t))
    pot hpot
  rw [hv] at k2
  obtain ⟨a, b, c, d⟩ := k2 hsmall
  exact ⟨by rw [a, hg1], by rw [b, hg2], by rw [c, hse], d⟩

/-- Witness of C6: from the boot state, the reading 600, second attempt at time 300. -/
theorem C6_second_attempt_idle_witness :
    (600 : ℕ) < 1024 ∧
    (updateAttempt (wrapGuard (readClock (updateAttempt init 600) 300)) 600).gain1
      = (updateAttempt init 600).gain1 :=
  ⟨by decide, (C6_second_attempt_idle init 600 300 (by decide)).1⟩

/-- Every gain computed from a reading is one of the even integers -20, -18, ..., 0. -/
theorem gain_dB_even (pot : ℕ) (hpot : pot < 1024) :
    ∃ k : ℕ, k ≤ 10 ∧ gain_dB pot = ((-20 + 2 * (k : ℤ) : ℤ) : ℚ) :=
  ⟨_, quantStep_le pot hpot, gain_dB_int pot hpot⟩

/-- The facts that hold between invocations of `loop()`. -/
theorem reachable_inv (s : State) (hs : Reachable s) :
    (∃ k : ℕ, k ≤ 10 ∧ s.prev_gain_dB = -20 + 2 * (k : ℤ)) ∧
    s.gain2 = s.gain1 ∧
    (s.gain1.head?).getD 0 = (s.prev_gain_dB : ℚ) ∧
    s.lastUpdate_millis ≤ s.curTime_millis := by
  induction hs with
  | boot => exact ⟨⟨10, le_refl _, rfl⟩, rfl, rfl, le_refl _⟩
  | step s now pot hs hnow hpot ih =>
    obtain ⟨ihk, ih2, ihh, -⟩ := ih
    obtain ⟨hc, hv, hg1, hg2, -, -, -⟩ := wrapGuard_readClock s now
    obtain ⟨hle, -⟩ := elapsed_wrapGuard s now hnow
    obtain ⟨l1, l2⟩ := loop_cases s now pot
    by_cases h : updatePeriod_millis < elapsed (wrapGuard (readClock s now))
    · rw [l1 h]
      obtain ⟨a, b, -⟩ := updateAttempt_times (wrapGuard (readClock s now)) pot
      obtain ⟨u1, u2⟩ := updateAttempt_gain (wrapGuard (readClock s now)) pot hpot
      rw [hv, hg1, hg2] at u1 u2
      refine ⟨?_, ?_, ?_, by rw [a, b]⟩
      · by_cases hch : 1 < |gain_dB pot - (s.prev_gain_dB : ℚ)|
        · obtain ⟨k, hk, hkg⟩ := gain_dB_even pot hpot
          refine ⟨k, hk, ?_⟩
          have := (u1 hch).2.2.2
          rw [hkg] at this
          exact_mod_cast this
        · rw [(u2 hch).2.2.2]; exact ihk
      · by_cases hch : 1 < |gain_dB pot - (s.prev_gain_dB : ℚ)|
        · rw [(u1 hch).1, (u1 hch).2.1, ih2]
        · rw [(u2 hch).1, (u2 hch).2.1, ih2]
      · by_cases hch : 1 < |gain_dB pot - (s.prev_gain_dB : ℚ)|
        · rw [(u1 hch).1, (u1 hch).2.2.2]; rfl
        · rw [(u2 hch).1, (u2 hch).2.2.2]; exact ihh
    · rw [l2 h, hv, hg1, hg2, hc]
      exact ⟨ihk, ih2, ihh, hle⟩

/-- Two even integers are more than 1 apart exactly when they differ. -/
theorem even_gap (a b : ℤ) (h : ∃ c : ℤ, a - b = 2 * c) :
    (1 < |(a : ℚ) - (b : ℚ)| ↔ (a : ℚ) ≠ (b : ℚ)) ∧
    ((a : ℚ) ≠ (b : ℚ) → 2 ≤ |(a : ℚ) - (b : ℚ)|) := by
  obtain ⟨c, hc⟩ := h
  have h2 : (a : ℚ) ≠ (b : ℚ) → 2 ≤ |(a : ℚ) - (b : ℚ)| := by
    intro hne
    have hne' : a ≠ b := fun e => hne (by rw [e])
    have : (2 : ℤ) ≤ |a - b| := by rw [le_abs']; omega
    have h3 : ((2 : ℤ) : ℚ) ≤ ((|a - b| : ℤ) : ℚ) := Int.cast_le.mpr this
    simpa using h3
  refine ⟨⟨?_, fun hne => by linarith [h2 hne]⟩, h2⟩
  intro h e
  rw [e, sub_self, abs_zero] at h
  norm_num at h

/-- C8: in every state reachable from boot by invocations of `loop()` with
32-bit times and readings in 0..1023, `prev_gain_dB` is one of the even integers
-20, -18, ..., 0, both channels have received the same gains, and `prev_gain_dB`
equals the gain most recently pushed to each channel (0 if none was pushed);
every gain computed from a reading is such an even integer, so its conversion to
`int` on assignment to `prev_gain_dB` loses nothing. -/
theorem C8_prev_gain_exact (s : State) (pot : ℕ) (hs : Reachable s) (hpot : pot < 1024) :
    (∃ k : ℕ, k ≤ 10 ∧ s.prev_gain_dB = -20 + 2 * (k : ℤ)) ∧
    s.gain1 = s.gain2 ∧
    (s.gain1.head?).getD 0 = (s.prev_gain_dB : ℚ) ∧
    (s.gain2.head?).getD 0 = (s.prev_gain_dB : ℚ) ∧
    (∃ k : ℕ, k ≤ 10 ∧ gain_dB pot = -20 + 2 * (k : ℚ)) ∧
    ((truncToInt (gain_dB pot) : ℤ) : ℚ) = gain_dB pot := by
  obtain ⟨hk, h12, hh, -⟩ := reachable_inv s hs
  refine ⟨hk, h12.symm, hh, by rw [h12]; exact hh,
    ⟨_, quantStep_le pot hpot, gain_dB_eq pot hpot⟩, ?_⟩
  rw [gain_dB_int pot hpot, truncToInt_intCast]

/-- Witness of C8: the state after one invocation at time 200 with the reading 600. -/
theorem C8_prev_gain_exact_witness :
    Reachable (loop init 200 600) ∧ (600 : ℕ) < 1024 ∧
    ((loop init 200 600).gain1.head?).getD 0 = ((loop init 200 600).prev_gain_dB : ℚ) :=
  ⟨Reachable.step init 200 600 Reachable.boot (by norm_num) (by decide), by decide,
   (C8_prev_gain_exact (loop init 200 600) 600
      (Reachable.step init 200 600 Reachable.boot (by norm_num) (by decide)) (by decide)).2.2.1⟩

/-- C9: for every 32-bit current time, after the wraparound guard the
last-update time is at most the current time, so the unsigned subtraction of
line 84 does not wrap: it equals the mathematical difference; and after the
invocation of `loop()` the last-update time is at most the current time. -/
theorem C9_no_wrap (s : State) (now pot : ℕ) (hnow : now < 2 ^ 32) :
    (wrapGuard (readClock s now)).curTime_millis = now ∧
    (wrapGuard (readClock s now)).lastUpdate_millis ≤ (wrapGuard (readClock s now)).curTime_millis ∧
    (elapsed (wrapGuard (readClock s now)) : ℤ)
      = ((wrapGuard (readClock s now)).curTime_millis : ℤ)
        - ((wrapGuard (readClock s now)).lastUpdate_millis : ℤ) ∧
    (loop s now pot).lastUpdate_millis ≤ (loop s now pot).curTime_millis := by
  obtain ⟨hle, he⟩ := elapsed_wrapGuard s now hnow
  obtain ⟨hc, -, -, -, -, -, -⟩ := wrapGuard_readClock s now
  obtain ⟨l1, l2⟩ := loop_cases s now pot
  obtain ⟨a, b, -⟩ := updateAttempt_times (wrapGuard (readClock s now)) pot
  refine ⟨hc, by rw [hc]; exact hle, ?_, ?_⟩
  · rw [he, hc]; omega
  · by_cases h : updatePeriod_millis < elapsed (wrapGuard (readClock s now))
    · rw [l1 h, a, b]
    · rw [l2 h, hc]; exact hle

/-- Witness of C9: last update at 4294967246, current time 10 after the counter wrapped. -/
theorem C9_no_wrap_witness :
    (10 : ℕ) < 2 ^ 32 ∧
    (wrapGuard (readClock { init with lastUpdate_millis := 4294967246 } 10)).lastUpdate_millis
      ≤ (wrapGuard (readClock { init with lastUpdate_millis := 4294967246 } 10)).curTime_millis :=
  ⟨by norm_num,
   (C9_no_wrap { init with lastUpdate_millis := 4294967246 } 10 512 (by norm_num)).2.1⟩

/-- C10: in every reachable state and for every reading in 0..1023, the update
attempt of `loop()` pushes the computed gain to both channels if and only if the
computed gain differs from `prev_gain_dB`, and leaves both channels alone when
they are equal; computed gains that differ are at least 2 dB apart, and readings
whose quantized values differ have gains at least 2 dB apart, so the 1 dB
threshold never suppresses a change of the quantized value. -/
theorem C10_push_iff_differs (s : State) (now pot : ℕ) (hs : Reachable s) (hpot : pot < 1024) :
    (((updateAttempt (wrapGuard (readClock s now)) pot).gain1 = gain_dB pot :: s.gain1 ∧
      (updateAttempt (wrapGuard (readClock s now)) pot).gain2 = gain_dB pot :: s.gain2) ↔
        gain_dB pot ≠ (s.prev_gain_dB : ℚ)) ∧
    (gain_dB pot = (s.prev_gain_dB : ℚ) →
      (updateAttempt (wrapGuard (readClock s now)) pot).gain1 = s.gain1 ∧
      (updateAttempt (wrapGuard (readClock s now)) pot).gain2 = s.gain2) ∧
    (∀ pot' : ℕ, pot' < 1024 → gain_dB pot' ≠ gain_dB pot →
      2 ≤ |gain_dB pot' - gain_dB pot|) ∧
    (∀ pot' : ℕ, pot' < 1024 → quantize (readVal pot') ≠ quantize (readVal pot) →
      2 ≤ |gain_dB pot' - gain_dB pot|) := by
  obtain ⟨⟨j, -, hj⟩, -, -, -⟩ := reachable_inv s hs
  obtain ⟨-, hv, hg1, hg2, -, -, -⟩ := wrapGuard_readClock s now
  obtain ⟨u1, u2⟩ := updateAttempt_gain (wrapGuard (readClock s now)) pot hpot
  rw [hv, hg1, hg2] at u1 u2
  have hg := gain_dB_int pot hpot
  obtain ⟨gap, -⟩ := even_gap (-20 + 2 * (((10 * pot + 512) / 1024 : ℕ) : ℤ)) s.prev_gain_dB
    ⟨(((10 * pot + 512) / 1024 : ℕ) : ℤ) - j, by rw [hj]; ring⟩
  rw [← hg] at gap
  have hfar : ∀ pot' : ℕ, pot' < 1024 → gain_dB pot' ≠ gain_dB pot →
      2 ≤ |gain_dB pot' - gain_dB pot| := by
    intro pot' hpot' hne
    have hg' := gain_dB_int pot' hpot'
    obtain ⟨-, far⟩ := even_gap (-20 + 2 * (((10 * pot' + 512) / 1024 : ℕ) : ℤ))
      (-20 + 2 * (((10 * pot + 512) / 1024 : ℕ) : ℤ))
      ⟨(((10 * pot' + 512) / 1024 : ℕ) : ℤ) - (((10 * pot + 512) / 1024 : ℕ) : ℤ), by ring⟩
    rw [← hg, ← hg'] at far
    exact far hne
  refine ⟨⟨?_, fun hne => ⟨(u1 (gap.mpr hne)).1, (u1 (gap.mpr hne)).2.1⟩⟩, ?_, hfar, ?_⟩
  · intro h heq
    have hn : ¬ 1 < |gain_dB pot - (s.prev_gain_dB : ℚ)| := fun h1 => gap.mp h1 heq
    have := (u2 hn).1
    rw [h.1] at this
    exact List.cons_ne_self _ _ this
  · intro heq
    have hn : ¬ 1 < |gain_dB pot - (s.prev_gain_dB : ℚ)| := fun h1 => gap.mp h1 heq
    exact ⟨(u2 hn).1, (u2 hn).2.1⟩
  · intro pot' hpot' hq
    apply hfar pot' hpot'
    intro heq
    apply hq
    have e1 := gain_dB_eq pot hpot
    have e2 := gain_dB_eq pot' hpot'
    rw [heq, e1] at e2
    have hkk : (((10 * pot + 512) / 1024 : ℕ) : ℚ) = (((10 * pot' + 512) / 1024 : ℕ) : ℚ) := by
      linarith
    rw [quantize_eq pot hpot, quantize_eq pot' hpot', hkk]

/-- Witness of C10: the boot state, time 200, the reading 600. -/
theorem C10_push_iff_differs_witness :
    Reachable init ∧ (600 : ℕ) < 1024 ∧
    (((updateAttempt (wrapGuard (readClock init 200)) 600).gain1 = gain_dB 600 :: init.gain1 ∧
      (updateAttempt (wrapGuard (readClock init 200)) 600).gain2 = gain_dB 600 :: init.gain2) ↔
        gain_dB 600 ≠ (init.prev_gain_dB : ℚ)) :=
  ⟨Reachable.boot, by decide, (C10_push_iff_differs init 200 600 Reachable.boot (by decide)).1⟩

end BasicGain
